import Mathlib

/-!
Verification of the Coastal Blue Carbon transient engine

Shallow embedding of `src/natcap/invest/coastal_blue_carbon/coastal_blue_carbon.py`
(the transient stock-and-flux simulation engine) and proofs about it.

Conventions:
* Python ints are `ℤ`/`ℕ`; the per-pixel float32 arithmetic of the engine is
  embedded over `ℚ` (the claims under study are about the recurrence, not about
  rounding); `np.nan` is represented by `none` in `Option ℚ` where it matters.
* A Python function that can raise is embedded in `Except String`.
* Block arrays are modelled per pixel: a `(transitions, x, y)` array becomes a
  function `ℕ → ℚ` of the transition index, a `(timesteps+1, x, y)` array a
  function of the timestep.
-/

namespace CBC

/-! ## Transition index resolver

Source: `timestep_to_transition_idx` (coastal_blue_carbon.py, lines 307-321):

```
for i in xrange(0, transitions):
    if timestep < (snapshot_years[i+1] - snapshot_years[0]):
        return i
```

The loop counter `i` runs from `0`; `fuel` is the number of remaining
iterations (`transitions - i`).  An out-of-range list access raises
`IndexError`; falling off the loop returns Python's implicit `None`.
-/

def ttiAux (snapshot_years : List ℤ) (timestep : ℤ) : ℕ → ℕ → Except String (Option ℕ)
  | 0, _ => Except.ok none
  | fuel + 1, i =>
    match snapshot_years.get? (i + 1), snapshot_years.get? 0 with
    | some syNext, some sy0 =>
        if timestep < syNext - sy0 then Except.ok (some i)
        else ttiAux snapshot_years timestep fuel (i + 1)
    | _, _ => Except.error "IndexError"

/-- Embeds `timestep_to_transition_idx(snapshot_years, transitions, timestep)`:
first transition index `i < transitions` with
`timestep < snapshot_years[i+1] - snapshot_years[0]`; `Except.ok none` models
the implicit `return None` when the loop is exhausted, `Except.error` models an
`IndexError` from an out-of-range list access. -/
def timestep_to_transition_idx (snapshot_years : List ℤ) (transitions : ℕ)
    (timestep : ℤ) : Except String (Option ℕ) :=
  ttiAux snapshot_years timestep transitions 0

/-- Python truthiness of the resolver's result: `None` and `0` are falsy. -/
def pyTruthy : Option ℕ → Bool
  | none => false
  | some n => !(n == 0)

/-- Embeds `is_transition_year(snapshot_years, transitions, timestep)` (lines 337-353):

```
if (timestep_to_transition_idx(snapshot_years, transitions, timestep) !=
    timestep_to_transition_idx(snapshot_years, transitions, timestep-1) and
        timestep_to_transition_idx(snapshot_years, transitions, timestep)):
    return True
return False
```

`and` short-circuits: the third call is only made when the first two differ;
an `IndexError` from any call propagates. -/
def is_transition_year (snapshot_years : List ℤ) (transitions : ℕ)
    (timestep : ℤ) : Except String Bool :=
  match timestep_to_transition_idx snapshot_years transitions timestep with
  | Except.error e => Except.error e
  | Except.ok a =>
    match timestep_to_transition_idx snapshot_years transitions (timestep - 1) with
    | Except.error e => Except.error e
    | Except.ok b =>
      if a ≠ b then
        match timestep_to_transition_idx snapshot_years transitions timestep with
        | Except.error e => Except.error e
        | Except.ok c => Except.ok (pyTruthy c)
      else Except.ok false

/-- The resolver's value with the `IndexError` channel collapsed to `none`.
Every theorem that uses it carries a hypothesis
(`transitions < snapshot_years.length`) under which the error branch is
unreachable, so the collapse is not observable. -/
def resolveIdx (snapshot_years : List ℤ) (transitions : ℕ) (timestep : ℤ) :
    Option ℕ :=
  match timestep_to_transition_idx snapshot_years transitions timestep with
  | Except.ok o => o
  | Except.error _ => none

/-- The value of `is_transition_year` with the `IndexError` channel collapsed to `False`
(same caveat as `resolveIdx`). -/
def isTransitionYearB (snapshot_years : List ℤ) (transitions : ℕ)
    (timestep : ℤ) : Bool :=
  match is_transition_year snapshot_years transitions timestep with
  | Except.ok b => b
  | Except.error _ => false

/-- The quantity `snapshot_years[k] - snapshot_years[0]`, the timestep of snapshot `k`
(`s_to_timestep`, lines 324-334). -/
def yearOffset (s : List ℤ) (k : ℕ) : ℤ := s.getD k 0 - s.getD 0 0

/-! ### Resolver lemmas -/

theorem get?_of_lt (l : List ℤ) (n : ℕ) (h : n < l.length) :
    l.get? n = some (l.getD n 0) := by
  induction l generalizing n with
  | nil => simp at h
  | cons a t ih =>
    cases n with
    | zero => simp
    | succ m =>
      simp only [List.length_cons, Nat.succ_lt_succ_iff] at h
      simpa using ih m h

theorem ttiAux_some_iff (s : List ℤ) (t : ℤ) (tr : ℕ) (htr : tr < s.length) :
    ∀ fuel i, i + fuel = tr → ∀ k,
      (ttiAux s t fuel i = Except.ok (some k) ↔
        (i ≤ k ∧ k < tr ∧ t < yearOffset s (k + 1) ∧
          ∀ m, i ≤ m → m < k → yearOffset s (m + 1) ≤ t)) := by
  intro fuel
  induction fuel with
  | zero =>
    intro i hi k
    simp only [ttiAux]
    constructor
    · intro h; exact absurd h (by simp)
    · rintro ⟨h1, h2, -⟩; omega
  | succ fuel ih =>
    intro i hi k
    have hi1 : i + 1 < s.length := by omega
    have h0 : (0 : ℕ) < s.length := by omega
    rw [ttiAux]
    rw [get?_of_lt s (i + 1) hi1, get?_of_lt s 0 h0]
    simp only []
    by_cases hcond : t < s.getD (i + 1) 0 - s.getD 0 0
    · rw [if_pos hcond]
      constructor
      · intro h
        have hk : k = i := by
          have := h
          simp only [Except.ok.injEq, Option.some.injEq] at this
          omega
        subst hk
        exact ⟨le_refl _, by omega, hcond, fun m h1 h2 => absurd h2 (by omega)⟩
      · rintro ⟨h1, h2, h3, h4⟩
        have hk : k = i := by
          by_contra hne
          have hik : i < k := by omega
          have := h4 i (le_refl _) hik
          exact absurd hcond (by rw [yearOffset] at this; omega)
        subst hk; rfl
    · rw [if_neg hcond]
      rw [ih (i + 1) (by omega) k]
      constructor
      · rintro ⟨h1, h2, h3, h4⟩
        refine ⟨by omega, h2, h3, fun m hm1 hm2 => ?_⟩
        rcases Nat.eq_or_lt_of_le hm1 with hm | hm
        · subst hm; rw [yearOffset]; omega
        · exact h4 m hm hm2
      · rintro ⟨h1, h2, h3, h4⟩
        have hik : i < k := by
          rcases Nat.eq_or_lt_of_le h1 with h | h
          · subst h; exact absurd h3 (by rw [yearOffset]; omega)
          · exact h
        exact ⟨hik, h2, h3, fun m hm1 hm2 => h4 m (by omega) hm2⟩

theorem ttiAux_none_iff (s : List ℤ) (t : ℤ) (tr : ℕ) (htr : tr < s.length) :
    ∀ fuel i, i + fuel = tr →
      (ttiAux s t fuel i = Except.ok none ↔
        ∀ m, i ≤ m → m < tr → yearOffset s (m + 1) ≤ t) := by
  intro fuel
  induction fuel with
  | zero =>
    intro i hi
    simp only [ttiAux]
    constructor
    · intro _ m h1 h2; omega
    · intro _; trivial
  | succ fuel ih =>
    intro i hi
    have hi1 : i + 1 < s.length := by omega
    have h0 : (0 : ℕ) < s.length := by omega
    rw [ttiAux]
    rw [get?_of_lt s (i + 1) hi1, get?_of_lt s 0 h0]
    simp only []
    by_cases hcond : t < s.getD (i + 1) 0 - s.getD 0 0
    · rw [if_pos hcond]
      constructor
      · intro h; exact absurd h (by simp)
      · intro h
        have := h i (le_refl _) (by omega)
        exact absurd hcond (by rw [yearOffset] at this; omega)
    · rw [if_neg hcond]
      rw [ih (i + 1) (by omega)]
      constructor
      · intro h m hm1 hm2
        rcases Nat.eq_or_lt_of_le hm1 with hm | hm
        · subst hm; rw [yearOffset]; omega
        · exact h m hm hm2
      · intro h m hm1 hm2; exact h m (by omega) hm2

theorem tti_ok (s : List ℤ) (t : ℤ) (tr : ℕ) (htr : tr < s.length) :
    ∃ o, timestep_to_transition_idx s tr t = Except.ok o := by
  rw [timestep_to_transition_idx]
  suffices h : ∀ fuel i, i + fuel = tr → ∃ o, ttiAux s t fuel i = Except.ok o by
    exact h tr 0 (by omega)
  intro fuel
  induction fuel with
  | zero => intro i hi; exact ⟨none, rfl⟩
  | succ fuel ih =>
    intro i hi
    have hi1 : i + 1 < s.length := by omega
    have h0 : (0 : ℕ) < s.length := by omega
    rw [ttiAux, get?_of_lt s (i + 1) hi1, get?_of_lt s 0 h0]
    simp only []
    by_cases hcond : t < s.getD (i + 1) 0 - s.getD 0 0
    · rw [if_pos hcond]; exact ⟨some i, rfl⟩
    · rw [if_neg hcond]; exact ih (i + 1) (by omega)

theorem resolveIdx_some_iff (s : List ℤ) (tr : ℕ) (t : ℤ)
    (htr : tr < s.length) (k : ℕ) :
    resolveIdx s tr t = some k ↔
      (k < tr ∧ t < yearOffset s (k + 1) ∧
        ∀ m, m < k → yearOffset s (m + 1) ≤ t) := by
  obtain ⟨o, ho⟩ := tti_ok s t tr htr
  rw [resolveIdx, ho]
  simp only []
  have h := (ttiAux_some_iff s t tr htr tr 0 (by omega) k)
  rw [timestep_to_transition_idx] at ho
  rw [ho] at h
  constructor
  · intro h2
    subst h2
    have := h.mp rfl
    exact ⟨this.2.1, this.2.2.1, fun m hm => this.2.2.2 m (by omega) hm⟩
  · rintro ⟨h1, h2, h3⟩
    have h5 := h.mpr ⟨by omega, h1, h2, fun m _ hm => h3 m hm⟩
    simpa using h5

theorem resolveIdx_none_iff (s : List ℤ) (tr : ℕ) (t : ℤ)
    (htr : tr < s.length) :
    resolveIdx s tr t = none ↔
      ∀ m, m < tr → yearOffset s (m + 1) ≤ t := by
  obtain ⟨o, ho⟩ := tti_ok s t tr htr
  rw [resolveIdx, ho]
  simp only []
  have h := ttiAux_none_iff s t tr htr tr 0 (by omega)
  rw [timestep_to_transition_idx] at ho
  rw [ho] at h
  constructor
  · intro h2; subst h2; exact fun m hm => h.mp rfl m (by omega) hm
  · intro h2
    have := h.mpr (fun m _ hm => h2 m hm)
    cases o with
    | none => rfl
    | some k => exact absurd this (by simp)

theorem getD_lt_getD (s : List ℤ) (hs : s.Sorted (· < ·)) {a b : ℕ}
    (hab : a < b) (hb : b < s.length) : s.getD a 0 < s.getD b 0 := by
  have ha : a < s.length := lt_trans hab hb
  have h1 := get?_of_lt s a ha
  have h2 := get?_of_lt s b hb
  rw [List.get?_eq_get ha] at h1
  rw [List.get?_eq_get hb] at h2
  have h3 := hs.rel_get_of_lt (a := ⟨a, ha⟩) (b := ⟨b, hb⟩) (Fin.mk_lt_mk.mpr hab)
  rw [Option.some_inj.mp h1] at h3
  rwa [Option.some_inj.mp h2] at h3

theorem yearOffset_zero (s : List ℤ) : yearOffset s 0 = 0 := by
  simp [yearOffset]

theorem yearOffset_lt (s : List ℤ) (hs : s.Sorted (· < ·)) {a b : ℕ}
    (hab : a < b) (hb : b < s.length) : yearOffset s a < yearOffset s b := by
  have := getD_lt_getD s hs hab hb
  rw [yearOffset, yearOffset]; omega

theorem yearOffset_le (s : List ℤ) (hs : s.Sorted (· < ·)) {a b : ℕ}
    (hab : a ≤ b) (hb : b < s.length) : yearOffset s a ≤ yearOffset s b := by
  rcases Nat.eq_or_lt_of_le hab with h | h
  · subst h; exact le_refl _
  · exact le_of_lt (yearOffset_lt s hs h hb)

theorem yearOffset_nonneg (s : List ℤ) (hs : s.Sorted (· < ·)) {k : ℕ}
    (hk : k < s.length) : 0 ≤ yearOffset s k := by
  have := yearOffset_le s hs (Nat.zero_le k) hk
  rwa [yearOffset_zero] at this

theorem resolveIdx_isSome (s : List ℤ) (tr : ℕ) (t : ℤ) (htr : tr < s.length)
    (ht0 : 0 ≤ t) (ht : t < yearOffset s tr) :
    ∃ c, resolveIdx s tr t = some c := by
  have htr1 : 1 ≤ tr := by
    by_contra h
    have : tr = 0 := by omega
    subst this
    rw [yearOffset_zero] at ht; omega
  cases ho : resolveIdx s tr t with
  | some c => exact ⟨c, rfl⟩
  | none =>
    have := (resolveIdx_none_iff s tr t htr).mp ho (tr - 1) (by omega)
    have heq : tr - 1 + 1 = tr := by omega
    rw [heq] at this
    omega

theorem resolveIdx_mono (s : List ℤ) (tr : ℕ) {t t' : ℤ} {c c' : ℕ}
    (htr : tr < s.length) (htt : t ≤ t')
    (hc : resolveIdx s tr t = some c) (hc' : resolveIdx s tr t' = some c') :
    c ≤ c' := by
  by_contra h
  have hlt : c' < c := by omega
  have h1 := ((resolveIdx_some_iff s tr t htr c).mp hc).2.2 c' hlt
  have h2 := ((resolveIdx_some_iff s tr t' htr c').mp hc').2.1
  omega

theorem resolveIdx_ge_start (s : List ℤ) (tr : ℕ) {t : ℤ} {c : ℕ}
    (htr : tr < s.length) (hc : resolveIdx s tr t = some c) (h1 : 1 ≤ c) :
    yearOffset s c ≤ t := by
  have := ((resolveIdx_some_iff s tr t htr c).mp hc).2.2 (c - 1) (by omega)
  have heq : c - 1 + 1 = c := by omega
  rwa [heq] at this

theorem resolveIdx_lt_next (s : List ℤ) (tr : ℕ) {t : ℤ} {c : ℕ}
    (htr : tr < s.length) (hc : resolveIdx s tr t = some c) :
    t < yearOffset s (c + 1) :=
  ((resolveIdx_some_iff s tr t htr c).mp hc).2.1

theorem resolveIdx_lt_tr (s : List ℤ) (tr : ℕ) {t : ℤ} {c : ℕ}
    (htr : tr < s.length) (hc : resolveIdx s tr t = some c) : c < tr :=
  ((resolveIdx_some_iff s tr t htr c).mp hc).1

theorem resolveIdx_zero (s : List ℤ) (tr : ℕ) (hs : s.Sorted (· < ·))
    (htr : tr < s.length) (htr1 : 1 ≤ tr) {t : ℤ} (ht0 : -1 ≤ t)
    (ht : t < yearOffset s 1) : resolveIdx s tr t = some 0 := by
  rw [resolveIdx_some_iff s tr t htr 0]
  exact ⟨htr1, ht, fun m hm => absurd hm (by omega)⟩

theorem resolveIdx_at_start (s : List ℤ) (tr : ℕ) (hs : s.Sorted (· < ·))
    (htr : tr < s.length) {k : ℕ} (hk1 : 1 ≤ k) (hk : k < tr) :
    resolveIdx s tr (yearOffset s k) = some k := by
  rw [resolveIdx_some_iff s tr _ htr k]
  refine ⟨hk, yearOffset_lt s hs (by omega) (by omega), fun m hm => ?_⟩
  exact yearOffset_le s hs (by omega) (by omega)

theorem resolveIdx_step (s : List ℤ) (tr : ℕ) (hs : s.Sorted (· < ·))
    (htr : tr < s.length) {i : ℤ} {c c' : ℕ}
    (hc : resolveIdx s tr i = some c) (hc' : resolveIdx s tr (i + 1) = some c') :
    c' = c ∨ (c' = c + 1 ∧ i + 1 = yearOffset s (c + 1)) := by
  have hcc : c ≤ c' := resolveIdx_mono s tr htr (by omega) hc hc'
  rcases Nat.eq_or_lt_of_le hcc with h | h
  · exact Or.inl h.symm
  · right
    have hle : c' ≤ c + 1 := by
      by_contra hgt
      have hc2 : c + 1 < c' := by omega
      have h1 := ((resolveIdx_some_iff s tr (i + 1) htr c').mp hc').2.2 (c + 1) hc2
      have h2 : yearOffset s (c + 1) < yearOffset s (c + 1 + 1) := by
        refine yearOffset_lt s hs (by omega) ?_
        have := resolveIdx_lt_tr s tr htr hc'
        omega
      have h3 := resolveIdx_lt_next s tr htr hc
      omega
    have hc1 : c' = c + 1 := by omega
    refine ⟨hc1, ?_⟩
    have h1 := resolveIdx_ge_start s tr htr hc' (by omega)
    rw [hc1] at h1
    have h2 := resolveIdx_lt_next s tr htr hc
    omega

theorem resolveIdx_of_ok {s : List ℤ} {tr : ℕ} {t : ℤ} {o : Option ℕ}
    (h : timestep_to_transition_idx s tr t = Except.ok o) :
    resolveIdx s tr t = o := by
  rw [resolveIdx, h]

theorem isTY_ok (s : List ℤ) (tr : ℕ) (t : ℤ) {o1 o2 : Option ℕ}
    (h1 : timestep_to_transition_idx s tr t = Except.ok o1)
    (h2 : timestep_to_transition_idx s tr (t - 1) = Except.ok o2) :
    is_transition_year s tr t = Except.ok (decide (o1 ≠ o2) && pyTruthy o1) := by
  rw [is_transition_year, h1, h2]
  by_cases h : o1 = o2
  · simp [h]
  · simp [h]

theorem isTYB_of_ok (s : List ℤ) (tr : ℕ) (t : ℤ) {o1 o2 : Option ℕ}
    (h1 : timestep_to_transition_idx s tr t = Except.ok o1)
    (h2 : timestep_to_transition_idx s tr (t - 1) = Except.ok o2) :
    isTransitionYearB s tr t = (decide (o1 ≠ o2) && pyTruthy o1) := by
  rw [isTransitionYearB, isTY_ok s tr t h1 h2]

theorem resolveIdx_zero_of_nat (s : List ℤ) (tr : ℕ) (hs : s.Sorted (· < ·))
    (htr : tr < s.length) {c : ℕ}
    (hc : resolveIdx s tr (0 : ℤ) = some c) : c = 0 := by
  by_contra hne
  have h1 : 1 ≤ c := by omega
  have h2 := ((resolveIdx_some_iff s tr 0 htr c).mp hc).2.2 0 (by omega)
  have h3 : yearOffset s 0 < yearOffset s (0 + 1) := by
    refine yearOffset_lt s hs (by omega) ?_
    have := resolveIdx_lt_tr s tr htr hc
    omega
  rw [yearOffset_zero] at h3
  omega

/-- Within the resolvable range, `is_transition_year` holds at a (natural)
timestep `i` exactly when `i` is the first timestep of a non-baseline
transition. -/
theorem isTY_char (s : List ℤ) (tr : ℕ) (hs : s.Sorted (· < ·))
    (htr : tr < s.length) (i : ℕ) {c : ℕ}
    (hc : resolveIdx s tr (i : ℤ) = some c) :
    isTransitionYearB s tr (i : ℤ) = true ↔
      (1 ≤ c ∧ (i : ℤ) = yearOffset s c) := by
  obtain ⟨o1, h1⟩ := tti_ok s (i : ℤ) tr htr
  obtain ⟨o2, h2⟩ := tti_ok s ((i : ℤ) - 1) tr htr
  have ho1 : o1 = some c := by
    have := resolveIdx_of_ok h1
    rw [this] at hc; exact hc
  subst ho1
  have ho2 : resolveIdx s tr ((i : ℤ) - 1) = o2 := resolveIdx_of_ok h2
  rw [isTYB_of_ok s tr (i : ℤ) h1 h2]
  have htr1 : 1 ≤ tr := by
    have := resolveIdx_lt_tr s tr htr hc
    omega
  cases i with
  | zero =>
    have hc0 : c = 0 := resolveIdx_zero_of_nat s tr hs htr (by exact_mod_cast hc)
    subst hc0
    have hneg : resolveIdx s tr ((0 : ℤ) - 1) = some 0 := by
      refine resolveIdx_zero s tr hs htr htr1 (by omega) ?_
      have h3 : yearOffset s 0 < yearOffset s 1 := yearOffset_lt s hs (by omega) (by omega)
      rw [yearOffset_zero] at h3
      omega
    have : o2 = some 0 := by rw [← ho2]; exact_mod_cast hneg
    subst this
    simp
  | succ n =>
    have hn1 : ((n + 1 : ℕ) : ℤ) = (n : ℤ) + 1 := by push_cast; ring
    have hcn : resolveIdx s tr ((n : ℤ) + 1) = some c := by rw [← hn1]; exact hc
    have hnlt : (n : ℤ) < yearOffset s tr := by
      have ha := resolveIdx_lt_next s tr htr hcn
      have hb : yearOffset s (c + 1) ≤ yearOffset s tr := by
        refine yearOffset_le s hs ?_ htr
        have := resolveIdx_lt_tr s tr htr hcn
        omega
      omega
    obtain ⟨cp, hcp⟩ := resolveIdx_isSome s tr (n : ℤ) htr (by omega) hnlt
    have ho2' : o2 = some cp := by
      rw [← ho2]
      have : ((n + 1 : ℕ) : ℤ) - 1 = (n : ℤ) := by omega
      rw [this]; exact hcp
    subst ho2'
    rcases resolveIdx_step s tr hs htr hcp hcn with hstep | ⟨hstep, hyear⟩
    · subst hstep
      constructor
      · intro h; simp at h
      · rintro ⟨hc1, hc2⟩
        have := resolveIdx_ge_start s tr htr hcp hc1
        rw [hn1] at hc2
        omega
    · subst hstep
      rw [hn1, hyear]
      constructor
      · intro _; exact ⟨by omega, rfl⟩
      · intro _
        simp [pyTruthy]

/-! ## The per-pixel transient engine

Source: the block loop of `execute` (coastal_blue_carbon.py, lines 123-302),
viewed at a single pixel.  The `(transitions, x, y)` coefficient arrays built
by reclassification (lines 163-221) enter as per-transition functions; the
baseline stocks `S_biomass[0]`, `S_soil[0]`, `S_litter[0]` (lines 203-218)
enter as `Sb0`, `Ss0`, `L0`.  The per-timestep price vector `price_t` is built
by `io.get_inputs` (module `io`, not among the sources) and enters as a
function. -/

structure CBCParams where
  snapshot_years : List ℤ
  transitions : ℕ
  Y_biomass : ℕ → ℚ
  Y_soil : ℕ → ℚ
  D_biomass : ℕ → ℚ
  D_soil : ℕ → ℚ
  Sb0 : ℚ
  Ss0 : ℚ
  L0 : ℚ
  price_t : ℕ → ℚ

/-- Modelled from the spec: the list `d['transition_years']` is built by
`io.get_inputs` (module `io`, which is not among the sources; only its caller
is).  Per the spec, transitions are delimited by consecutive snapshot years
("there are `N_snapshots - 1` transitions"), and in the emission formula "`j`
is the timestep at which that transition began"; so the years from which the
code computes `j = transition_years[k] - transition_years[0]` are the snapshot
years themselves. -/
def CBCParams.transition_years (p : CBCParams) : List ℤ := p.snapshot_years

/-- Embeds `j = transition_years[k] - transition_years[0]` (lines 243-244). -/
def transitionStart (p : CBCParams) (k : ℕ) : ℤ :=
  p.transition_years.getD k 0 - p.transition_years.getD 0 0

theorem transitionStart_eq (p : CBCParams) (k : ℕ) :
    transitionStart p k = yearOffset p.snapshot_years k := rfl

/-- Embeds `0.5**(i-j) - 0.5**(i-j+1)` (lines 245-248): the fraction of a frozen
disturbed stock released during timestep `i` for a transition that began at
timestep `j`. -/
def decayRelease (i j : ℤ) : ℚ :=
  (1 / 2 : ℚ) ^ (i - j) - (1 / 2 : ℚ) ^ (i - j + 1)

/-- Per-pixel mutable state of the transient loop: the running stocks and the
per-transition frozen disturbed stocks `R` (biomass and soil). -/
structure CBCState where
  S_biomass : ℚ
  S_soil : ℚ
  R_biomass : ℕ → ℚ
  R_soil : ℕ → ℚ

/-- State before the first loop iteration: `S_biomass[0]`, `S_soil[0]` from
the baseline reclassification and `R_*[0] = D_*[0] * S_*[0]` (lines 220-221);
all other `R` entries are still the zeros they were allocated with. -/
def initState (p : CBCParams) : CBCState where
  S_biomass := p.Sb0
  S_soil := p.Ss0
  R_biomass := fun k => if k = 0 then p.D_biomass 0 * p.Sb0 else 0
  R_soil := fun k => if k = 0 then p.D_soil 0 * p.Ss0 else 0

/-- Lines 228-232: on a transition year, freeze
`R[transition_idx] = D[transition_idx] * S[i]`.  (When `is_transition_year`
holds the resolver returns `some k`, so the `getD 0` default is never the
value used.) -/
def freezeR (p : CBCParams) (i : ℕ) (st : CBCState) : CBCState :=
  if isTransitionYearB p.snapshot_years p.transitions (i : ℤ) then
    let k := (resolveIdx p.snapshot_years p.transitions (i : ℤ)).getD 0
    { st with
      R_biomass := Function.update st.R_biomass k (p.D_biomass k * st.S_biomass)
      R_soil := Function.update st.R_soil k (p.D_soil k * st.S_soil) }
  else st

/-- Lines 239-248: `E[i] = sum over transition_idx in 0..current of
R[transition_idx] * (0.5**(i-j) - 0.5**(i-j+1))`.  The loop bound is the
resolved transition index for timestep `i` (under the theorems' hypotheses it
is always `some`, so `getD 0` is not observable). -/
def emission (p : CBCParams) (i : ℕ) (R : ℕ → ℚ) : ℚ :=
  ∑ k in Finset.range
      ((resolveIdx p.snapshot_years p.transitions (i : ℤ)).getD 0 + 1),
    R k * decayRelease (i : ℤ) (transitionStart p k)

/-- One iteration of the transient loop (lines 224-257) at timestep `i`:
freeze `R` on a transition year, set accumulation `A[i] = Y[transition_idx]`,
emissions `E[i]`, net sequestration `N[i] = A[i] - E[i]`, and advance the
stocks `S[i+1] = S[i] + N[i]`. -/
def stepState (p : CBCParams) (i : ℕ) (st : CBCState) : CBCState :=
  let stF := freezeR p i st
  let idx := (resolveIdx p.snapshot_years p.transitions (i : ℤ)).getD 0
  let Ab := p.Y_biomass idx
  let As := p.Y_soil idx
  let Eb := emission p i stF.R_biomass
  let Es := emission p i stF.R_soil
  { S_biomass := stF.S_biomass + (Ab - Eb)
    S_soil := stF.S_soil + (As - Es)
    R_biomass := stF.R_biomass
    R_soil := stF.R_soil }

/-- The pixel state entering loop iteration `t` (so `stateAt p t` carries the
stocks `S_biomass[t]`, `S_soil[t]`). -/
def stateAt (p : CBCParams) : ℕ → CBCState
  | 0 => initState p
  | i + 1 => stepState p i (stateAt p i)

def S_biomassAt (p : CBCParams) (t : ℕ) : ℚ := (stateAt p t).S_biomass

def S_soilAt (p : CBCParams) (t : ℕ) : ℚ := (stateAt p t).S_soil

/-- Litter: `S_litter` is allocated as zeros of shape `(timesteps+1, x, y)` (line 139)
and only `S_litter[0]` is ever assigned (lines 213-217): the slices for
`t >= 1` keep their zeros. -/
def S_litterAt (p : CBCParams) : ℕ → ℚ
  | 0 => p.L0
  | _ + 1 => 0

/-- Embeds `T[0] = S_biomass[0] + S_soil[0] + S_litter[0]` (line 218) and
`T[i+1] = S_biomass[i+1] + S_soil[i+1] + S_litter[i+1]` (line 257). -/
def T_At (p : CBCParams) : ℕ → ℚ
  | 0 => p.Sb0 + p.Ss0 + p.L0
  | t + 1 => S_biomassAt p (t + 1) + S_soilAt p (t + 1) + S_litterAt p (t + 1)

/-- Embeds `A_biomass[i] = Y_biomass[transition_idx]` (line 235). -/
def A_biomassAt (p : CBCParams) (i : ℕ) : ℚ :=
  p.Y_biomass ((resolveIdx p.snapshot_years p.transitions (i : ℤ)).getD 0)

def A_soilAt (p : CBCParams) (i : ℕ) : ℚ :=
  p.Y_soil ((resolveIdx p.snapshot_years p.transitions (i : ℤ)).getD 0)

/-- Embeds `E_biomass[i]` as summed at lines 239-248 (from the `R` values after the
freeze of lines 228-232). -/
def E_biomassAt (p : CBCParams) (i : ℕ) : ℚ :=
  emission p i (freezeR p i (stateAt p i)).R_biomass

def E_soilAt (p : CBCParams) (i : ℕ) : ℚ :=
  emission p i (freezeR p i (stateAt p i)).R_soil

/-- Embeds `N_biomass[i] = A_biomass[i] - E_biomass[i]` (line 251). -/
def N_biomassAt (p : CBCParams) (i : ℕ) : ℚ := A_biomassAt p i - E_biomassAt p i

def N_soilAt (p : CBCParams) (i : ℕ) : ℚ := A_soilAt p i - E_soilAt p i

/-- Embeds `V[i] = (N_biomass[i] + N_soil[0]) * price_t[i]` — line 261 of the source
reads `N_soil[0]`, the baseline-timestep soil net sequestration, not
`N_soil[i]`. -/
def V_At (p : CBCParams) (i : ℕ) : ℚ :=
  (N_biomassAt p i + N_soilAt p 0) * p.price_t i

/-- Embeds `NPV = np.sum(V, axis=0)` (line 297). -/
def NPV (p : CBCParams) (timesteps : ℕ) : ℚ :=
  ∑ i in Finset.range timesteps, V_At p i

/-! ### Structural lemmas about the engine -/

theorem freezeR_S_biomass (p : CBCParams) (i : ℕ) (st : CBCState) :
    (freezeR p i st).S_biomass = st.S_biomass := by
  rw [freezeR]; split <;> rfl

theorem freezeR_S_soil (p : CBCParams) (i : ℕ) (st : CBCState) :
    (freezeR p i st).S_soil = st.S_soil := by
  rw [freezeR]; split <;> rfl

theorem stateAt_succ_R_biomass (p : CBCParams) (i : ℕ) :
    (stateAt p (i + 1)).R_biomass = (freezeR p i (stateAt p i)).R_biomass := rfl

theorem stateAt_succ_R_soil (p : CBCParams) (i : ℕ) :
    (stateAt p (i + 1)).R_soil = (freezeR p i (stateAt p i)).R_soil := rfl

theorem S_biomassAt_succ (p : CBCParams) (i : ℕ) :
    S_biomassAt p (i + 1) = S_biomassAt p i + (A_biomassAt p i - E_biomassAt p i) := by
  show (stepState p i (stateAt p i)).S_biomass = _
  rw [stepState]
  simp only []
  rw [freezeR_S_biomass]
  rfl

theorem S_soilAt_succ (p : CBCParams) (i : ℕ) :
    S_soilAt p (i + 1) = S_soilAt p i + (A_soilAt p i - E_soilAt p i) := by
  show (stepState p i (stateAt p i)).S_soil = _
  rw [stepState]
  simp only []
  rw [freezeR_S_soil]
  rfl

/-- The frozen-disturbed-stock invariant: entering (and after the freeze of)
loop iteration `i`, the `R` entry of every transition `k` up to the currently
resolved one holds `D[k]` times the stock at the timestep at which transition
`k` began, and every later entry still holds its initial zero. -/
theorem R_after_freeze (p : CBCParams) (hs : p.snapshot_years.Sorted (· < ·))
    (htr : p.transitions < p.snapshot_years.length) :
    ∀ i : ℕ, (i : ℤ) < yearOffset p.snapshot_years p.transitions →
      ∃ c, resolveIdx p.snapshot_years p.transitions (i : ℤ) = some c ∧
        (∀ k, (freezeR p i (stateAt p i)).R_biomass k =
          if k ≤ c then
            p.D_biomass k * S_biomassAt p (yearOffset p.snapshot_years k).toNat
          else 0) ∧
        (∀ k, (freezeR p i (stateAt p i)).R_soil k =
          if k ≤ c then
            p.D_soil k * S_soilAt p (yearOffset p.snapshot_years k).toNat
          else 0) := by
  intro i
  induction i with
  | zero =>
    intro hi
    obtain ⟨c, hc⟩ := resolveIdx_isSome p.snapshot_years p.transitions 0 htr
      (by omega) (by exact_mod_cast hi)
    have hc' : resolveIdx p.snapshot_years p.transitions ((0 : ℕ) : ℤ) = some c := by
      exact_mod_cast hc
    have hc0 : c = 0 := resolveIdx_zero_of_nat p.snapshot_years p.transitions hs htr hc
    subst hc0
    have hty : isTransitionYearB p.snapshot_years p.transitions ((0 : ℕ) : ℤ) = false := by
      rw [Bool.eq_false_iff]
      intro h
      have := (isTY_char p.snapshot_years p.transitions hs htr 0 hc').mp h
      omega
    have hfr : freezeR p 0 (stateAt p 0) = stateAt p 0 := by
      rw [freezeR, hty]
      simp
    refine ⟨0, hc', ?_, ?_⟩
    · intro k
      rw [hfr]
      show (initState p).R_biomass k = _
      rw [initState]
      simp only []
      cases k with
      | zero =>
        rw [if_pos rfl, if_pos (le_refl 0)]
        rw [yearOffset_zero]
        rfl
      | succ m =>
        rw [if_neg (by omega), if_neg (by omega)]
    · intro k
      rw [hfr]
      show (initState p).R_soil k = _
      rw [initState]
      simp only []
      cases k with
      | zero =>
        rw [if_pos rfl, if_pos (le_refl 0)]
        rw [yearOffset_zero]
        rfl
      | succ m =>
        rw [if_neg (by omega), if_neg (by omega)]
  | succ i ih =>
    intro hi1
    have hcast : ((i + 1 : ℕ) : ℤ) = (i : ℤ) + 1 := by push_cast; ring
    have hi : (i : ℤ) < yearOffset p.snapshot_years p.transitions := by omega
    obtain ⟨c, hc, hRb, hRs⟩ := ih hi
    obtain ⟨c', hc'⟩ := resolveIdx_isSome p.snapshot_years p.transitions
      ((i : ℤ) + 1) htr (by omega) (by omega)
    have hc'' : resolveIdx p.snapshot_years p.transitions ((i + 1 : ℕ) : ℤ) = some c' := by
      rw [hcast]; exact hc'
    rcases resolveIdx_step p.snapshot_years p.transitions hs htr hc hc'
      with hstep | ⟨hstep, hyear⟩
    · -- no freeze this iteration: the resolved index did not change
      subst hstep
      have hty : isTransitionYearB p.snapshot_years p.transitions ((i + 1 : ℕ) : ℤ) = false := by
        rw [Bool.eq_false_iff]
        intro h
        obtain ⟨hc1, hc2⟩ := (isTY_char p.snapshot_years p.transitions hs htr (i + 1) hc'').mp h
        have := resolveIdx_ge_start p.snapshot_years p.transitions htr hc hc1
        omega
      have hfr : freezeR p (i + 1) (stateAt p (i + 1)) = stateAt p (i + 1) := by
        rw [freezeR, hty]; simp
      refine ⟨c', hc'', ?_, ?_⟩
      · intro k
        rw [hfr, stateAt_succ_R_biomass]
        exact hRb k
      · intro k
        rw [hfr, stateAt_succ_R_soil]
        exact hRs k
    · -- freeze: transition c+1 begins exactly at timestep i+1
      subst hstep
      have hty : isTransitionYearB p.snapshot_years p.transitions ((i + 1 : ℕ) : ℤ) = true := by
        refine (isTY_char p.snapshot_years p.transitions hs htr (i + 1) hc'').mpr ?_
        exact ⟨by omega, by omega⟩
      have htn : (yearOffset p.snapshot_years (c + 1)).toNat = i + 1 := by omega
      refine ⟨c + 1, hc'', ?_, ?_⟩
      · intro k
        rw [freezeR, hty]
        simp only [if_true, hc'', Option.getD_some]
        rw [stateAt_succ_R_biomass, Function.update_apply]
        by_cases hk : k = c + 1
        · subst hk
          rw [if_pos rfl, if_pos (le_refl _), htn]
          rfl
        · rw [if_neg hk, hRb k]
          by_cases hkc : k ≤ c
          · rw [if_pos hkc, if_pos (by omega)]
          · rw [if_neg hkc, if_neg (by omega)]
      · intro k
        rw [freezeR, hty]
        simp only [if_true, hc'', Option.getD_some]
        rw [stateAt_succ_R_soil, Function.update_apply]
        by_cases hk : k = c + 1
        · subst hk
          rw [if_pos rfl, if_pos (le_refl _), htn]
          rfl
        · rw [if_neg hk, hRs k]
          by_cases hkc : k ≤ c
          · rw [if_pos hkc, if_pos (by omega)]
          · rw [if_neg hkc, if_neg (by omega)]

/-! ## Claim theorems -/

/-- C1: for every pixel and every timestep `i` in `[0, timesteps)` (the
resolvable range), the biomass (resp. soil) emission computed by the transient
loop equals the sum, over every transition `k` from `0` through the transition
index resolved for `i`, of the frozen disturbed stock of transition `k` — the
disturbance fraction times the stock at the timestep `j` at which transition
`k` began, which is when it was frozen — times `0.5^(i-j) - 0.5^(i-j+1)`. -/
theorem claim_C1_transient_emission (p : CBCParams)
    (hs : p.snapshot_years.Sorted (· < ·))
    (htr : p.transitions < p.snapshot_years.length)
    (i : ℕ) (hi : (i : ℤ) < yearOffset p.snapshot_years p.transitions) :
    ∃ c, resolveIdx p.snapshot_years p.transitions (i : ℤ) = some c ∧
      E_biomassAt p i = ∑ k in Finset.range (c + 1),
        (p.D_biomass k * S_biomassAt p (transitionStart p k).toNat) *
          decayRelease (i : ℤ) (transitionStart p k) ∧
      E_soilAt p i = ∑ k in Finset.range (c + 1),
        (p.D_soil k * S_soilAt p (transitionStart p k).toNat) *
          decayRelease (i : ℤ) (transitionStart p k) := by
  obtain ⟨c, hc, hRb, hRs⟩ := R_after_freeze p hs htr i hi
  refine ⟨c, hc, ?_, ?_⟩
  · rw [E_biomassAt, emission, hc]
    simp only [Option.getD_some]
    refine Finset.sum_congr rfl ?_
    intro k hk
    rw [Finset.mem_range] at hk
    rw [hRb k, if_pos (by omega : k ≤ c)]
    rfl
  · rw [E_soilAt, emission, hc]
    simp only [Option.getD_some]
    refine Finset.sum_congr rfl ?_
    intro k hk
    rw [Finset.mem_range] at hk
    rw [hRs k, if_pos (by omega : k ≤ c)]
    rfl

def emissionParams : CBCParams where
  snapshot_years := [2000, 2002, 2004]
  transitions := 2
  Y_biomass := fun _ => 1
  Y_soil := fun _ => 2
  D_biomass := fun _ => 1 / 2
  D_soil := fun _ => 1 / 4
  Sb0 := 8
  Ss0 := 4
  L0 := 1
  price_t := fun _ => 3

/-- Witness for C1 at a concrete two-transition scenario and timestep 2. -/
theorem claim_C1_witness :
    ∃ c, resolveIdx emissionParams.snapshot_years emissionParams.transitions
        ((2 : ℕ) : ℤ) = some c ∧
      E_biomassAt emissionParams 2 = ∑ k in Finset.range (c + 1),
        (emissionParams.D_biomass k *
          S_biomassAt emissionParams (transitionStart emissionParams k).toNat) *
          decayRelease ((2 : ℕ) : ℤ) (transitionStart emissionParams k) ∧
      E_soilAt emissionParams 2 = ∑ k in Finset.range (c + 1),
        (emissionParams.D_soil k *
          S_soilAt emissionParams (transitionStart emissionParams k).toNat) *
          decayRelease ((2 : ℕ) : ℤ) (transitionStart emissionParams k) :=
  claim_C1_transient_emission emissionParams (by decide) (by decide) 2 (by decide)

/-- C4 counterexample: with `snapshot_years = [2000, 2005]`, one transition,
at `t = 5` (the final transition's end) `timestep_to_transition_idx` returns
Python's `None` — an ordinary return value — and does not fail with an
`IndexError`-class condition. -/
theorem claim_C4_counterexample :
    timestep_to_transition_idx [2000, 2005] 1 5 = Except.ok none ∧
    ∀ e, timestep_to_transition_idx [2000, 2005] 1 5 ≠ Except.error e := by
  refine ⟨rfl, fun e h => ?_⟩
  have h0 : timestep_to_transition_idx [2000, 2005] 1 5 = Except.ok none := rfl
  rw [h0] at h
  exact Except.noConfusion h

/-- C4 amended: for a strictly increasing `snapshot_years` and
`transitions < length`, `timestep_to_transition_idx` returns the smallest
transition index `i` with `t < snapshot_years[i+1] - snapshot_years[0]` for
every `t` in `[0, snapshot_years[transitions] - snapshot_years[0])`; for `t`
at or beyond the final transition's end it returns `None` (an ordinary value,
no `IndexError`). -/
theorem claim_C4_amended (s : List ℤ) (tr : ℕ) (hs : s.Sorted (· < ·))
    (htr : tr < s.length) (t : ℤ) :
    (0 ≤ t → t < yearOffset s tr →
      ∃ i, timestep_to_transition_idx s tr t = Except.ok (some i) ∧
        t < yearOffset s (i + 1) ∧ ∀ m, m < i → yearOffset s (m + 1) ≤ t) ∧
    (yearOffset s tr ≤ t → timestep_to_transition_idx s tr t = Except.ok none) := by
  constructor
  · intro ht0 ht
    obtain ⟨c, hc⟩ := resolveIdx_isSome s tr t htr ht0 ht
    obtain ⟨o, ho⟩ := tti_ok s t tr htr
    have hoc : o = some c := by rw [← resolveIdx_of_ok ho]; exact hc
    subst hoc
    have h2 := (resolveIdx_some_iff s tr t htr c).mp hc
    exact ⟨c, ho, h2.2.1, h2.2.2⟩
  · intro ht
    obtain ⟨o, ho⟩ := tti_ok s t tr htr
    have hnone : resolveIdx s tr t = none := by
      rw [resolveIdx_none_iff s tr t htr]
      intro m hm
      calc yearOffset s (m + 1) ≤ yearOffset s tr := yearOffset_le s hs (by omega) htr
        _ ≤ t := ht
    have : o = none := by rw [← resolveIdx_of_ok ho]; exact hnone
    subst this
    exact ho

/-- Witness for C4 (amended) at `snapshot_years = [2000, 2005]`,
`transitions = 1`, `t = 3`. -/
theorem claim_C4_witness :
    ((0 : ℤ) ≤ 3 → (3 : ℤ) < yearOffset [2000, 2005] 1 →
      ∃ i, timestep_to_transition_idx [2000, 2005] 1 3 = Except.ok (some i) ∧
        (3 : ℤ) < yearOffset [2000, 2005] (i + 1) ∧
        ∀ m, m < i → yearOffset [2000, 2005] (m + 1) ≤ 3) ∧
    (yearOffset [2000, 2005] 1 ≤ 3 →
      timestep_to_transition_idx [2000, 2005] 1 3 = Except.ok none) :=
  claim_C4_amended [2000, 2005] 1 (by decide) (by decide) 3

/-- C7: for strictly increasing snapshot years (with the caller's invariant
`transitions < length`) and every timestep `t ≥ 0`, `is_transition_year`
returns `True` iff the transition index resolved for `t` differs from the one
resolved for `t-1` and the one resolved for `t` is nonzero; at `t = 0` it
returns `False`. -/
theorem claim_C7_is_transition_year (s : List ℤ) (tr : ℕ)
    (hs : s.Sorted (· < ·)) (htr : tr < s.length) (t : ℤ) (ht : 0 ≤ t) :
    (∃ b, is_transition_year s tr t = Except.ok b ∧
      (b = true ↔ (resolveIdx s tr t ≠ resolveIdx s tr (t - 1) ∧
        ∃ k, resolveIdx s tr t = some k ∧ k ≠ 0))) ∧
    is_transition_year s tr 0 = Except.ok false := by
  constructor
  · obtain ⟨o1, h1⟩ := tti_ok s t tr htr
    obtain ⟨o2, h2⟩ := tti_ok s (t - 1) tr htr
    refine ⟨decide (o1 ≠ o2) && pyTruthy o1, isTY_ok s tr t h1 h2, ?_⟩
    rw [resolveIdx_of_ok h1, resolveIdx_of_ok h2]
    cases o1 with
    | none => simp [pyTruthy]
    | some n => simp [pyTruthy]
  · obtain ⟨o1, h1⟩ := tti_ok s (0 : ℤ) tr htr
    obtain ⟨o2, h2⟩ := tti_ok s ((0 : ℤ) - 1) tr htr
    have heq : o1 = o2 := by
      by_cases htr0 : tr = 0
      · subst htr0
        have e1 : timestep_to_transition_idx s 0 (0 : ℤ) = Except.ok none := rfl
        have e2 : timestep_to_transition_idx s 0 ((0 : ℤ) - 1) = Except.ok none := rfl
        rw [e1] at h1; rw [e2] at h2
        rw [← Except.ok.inj h1, ← Except.ok.inj h2]
      · have htr1 : 1 ≤ tr := by omega
        have hg1 : 0 < yearOffset s 1 := by
          have := yearOffset_lt s hs (show 0 < 1 by omega) (by omega)
          rwa [yearOffset_zero] at this
        have r1 : resolveIdx s tr (0 : ℤ) = some 0 :=
          resolveIdx_zero s tr hs htr htr1 (by omega) hg1
        have r2 : resolveIdx s tr ((0 : ℤ) - 1) = some 0 :=
          resolveIdx_zero s tr hs htr htr1 (by omega) (by omega)
        have e1 : o1 = some 0 := by rw [← resolveIdx_of_ok h1]; exact r1
        have e2 : o2 = some 0 := by rw [← resolveIdx_of_ok h2]; exact r2
        rw [e1, e2]
    subst heq
    rw [isTY_ok s tr 0 h1 h2]
    simp

/-- Witness for C7 at `snapshot_years = [2000, 2002, 2005]`, `transitions = 2`,
`t = 2` (the first timestep of transition 1). -/
theorem claim_C7_witness :
    (∃ b, is_transition_year [2000, 2002, 2005] 2 2 = Except.ok b ∧
      (b = true ↔ (resolveIdx [2000, 2002, 2005] 2 2 ≠
          resolveIdx [2000, 2002, 2005] 2 (2 - 1) ∧
        ∃ k, resolveIdx [2000, 2002, 2005] 2 2 = some k ∧ k ≠ 0))) ∧
    is_transition_year [2000, 2002, 2005] 2 0 = Except.ok false :=
  claim_C7_is_transition_year [2000, 2002, 2005] 2 (by decide) (by decide) 2 (by decide)

/-! ### Zero-disturbance helper lemmas (shared) -/

theorem freezeR_R_biomass_zero (p : CBCParams) (t : ℕ) (st : CBCState)
    (hDb : ∀ k, p.D_biomass k = 0) (hst : ∀ k, st.R_biomass k = 0) :
    ∀ k, (freezeR p t st).R_biomass k = 0 := by
  intro k
  rw [freezeR]
  split
  · simp only [Function.update_apply]
    split
    · rw [hDb]; ring
    · exact hst k
  · exact hst k

theorem freezeR_R_soil_zero (p : CBCParams) (t : ℕ) (st : CBCState)
    (hDs : ∀ k, p.D_soil k = 0) (hst : ∀ k, st.R_soil k = 0) :
    ∀ k, (freezeR p t st).R_soil k = 0 := by
  intro k
  rw [freezeR]
  split
  · simp only [Function.update_apply]
    split
    · rw [hDs]; ring
    · exact hst k
  · exact hst k

theorem stateAt_R_biomass_zero (p : CBCParams) (hDb : ∀ k, p.D_biomass k = 0) :
    ∀ t k, (stateAt p t).R_biomass k = 0 := by
  intro t
  induction t with
  | zero =>
    intro k
    show (if k = 0 then p.D_biomass 0 * p.Sb0 else 0) = 0
    rw [hDb 0]; split <;> ring
  | succ t ih =>
    intro k
    rw [stateAt_succ_R_biomass]
    exact freezeR_R_biomass_zero p t (stateAt p t) hDb ih k

theorem stateAt_R_soil_zero (p : CBCParams) (hDs : ∀ k, p.D_soil k = 0) :
    ∀ t k, (stateAt p t).R_soil k = 0 := by
  intro t
  induction t with
  | zero =>
    intro k
    show (if k = 0 then p.D_soil 0 * p.Ss0 else 0) = 0
    rw [hDs 0]; split <;> ring
  | succ t ih =>
    intro k
    rw [stateAt_succ_R_soil]
    exact freezeR_R_soil_zero p t (stateAt p t) hDs ih k

theorem E_biomass_zero (p : CBCParams) (hDb : ∀ k, p.D_biomass k = 0) (i : ℕ) :
    E_biomassAt p i = 0 := by
  rw [E_biomassAt, emission]
  refine Finset.sum_eq_zero ?_
  intro k _
  rw [freezeR_R_biomass_zero p i (stateAt p i) hDb (stateAt_R_biomass_zero p hDb i) k]
  ring

theorem E_soil_zero (p : CBCParams) (hDs : ∀ k, p.D_soil k = 0) (i : ℕ) :
    E_soilAt p i = 0 := by
  rw [E_soilAt, emission]
  refine Finset.sum_eq_zero ?_
  intro k _
  rw [freezeR_R_soil_zero p i (stateAt p i) hDs (stateAt_R_soil_zero p hDs i) k]
  ring

/-- C8: a pixel with zero yearly accumulation and zero disturbance fraction at
every transition keeps its initial biomass and soil stocks at every timestep. -/
theorem claim_C8_stock_conservation (p : CBCParams)
    (hYb : ∀ k, p.Y_biomass k = 0) (hYs : ∀ k, p.Y_soil k = 0)
    (hDb : ∀ k, p.D_biomass k = 0) (hDs : ∀ k, p.D_soil k = 0) :
    ∀ t, S_biomassAt p t = p.Sb0 ∧ S_soilAt p t = p.Ss0 := by
  intro t
  induction t with
  | zero => exact ⟨rfl, rfl⟩
  | succ t ih =>
    constructor
    · rw [S_biomassAt_succ, A_biomassAt, hYb, E_biomass_zero p hDb t, ih.1]
      ring
    · rw [S_soilAt_succ, A_soilAt, hYs, E_soil_zero p hDs t, ih.2]
      ring

def conservedParams : CBCParams where
  snapshot_years := [2000, 2003]
  transitions := 1
  Y_biomass := fun _ => 0
  Y_soil := fun _ => 0
  D_biomass := fun _ => 0
  D_soil := fun _ => 0
  Sb0 := 7
  Ss0 := 3
  L0 := 2
  price_t := fun _ => 1

/-- Witness for C8: zero-rate pixel, stocks unchanged after 5 timesteps. -/
theorem claim_C8_witness :
    S_biomassAt conservedParams 5 = 7 ∧ S_soilAt conservedParams 5 = 3 := by
  have h := claim_C8_stock_conservation conservedParams
    (fun _ => rfl) (fun _ => rfl) (fun _ => rfl) (fun _ => rfl) 5
  exact ⟨h.1, h.2⟩

def litterParams : CBCParams where
  snapshot_years := [2000, 2001]
  transitions := 1
  Y_biomass := fun _ => 0
  Y_soil := fun _ => 0
  D_biomass := fun _ => 0
  D_soil := fun _ => 0
  Sb0 := 0
  Ss0 := 0
  L0 := 1
  price_t := fun _ => 0

/-- C2 counterexample: a pixel whose baseline litter is `1` (all rates zero).
At `t = 1` the litter slice used by the engine is `0`, not the baseline value,
and the total stock `T[1]` is `S_biomass[1] + S_soil[1] + 0`, not
`S_biomass[1] + S_soil[1] + S_litter[0]`: `S_litter[t]` for `t >= 1` is never
assigned and keeps the zeros it was allocated with. -/
theorem claim_C2_counterexample :
    ¬(S_litterAt litterParams 1 = S_litterAt litterParams 0 ∧
      T_At litterParams 1 = S_biomassAt litterParams 1 + S_soilAt litterParams 1 +
        S_litterAt litterParams 0) := by
  rintro ⟨h1, -⟩
  have ha : S_litterAt litterParams 1 = 0 := rfl
  have hb : S_litterAt litterParams 0 = 1 := rfl
  rw [ha, hb] at h1
  norm_num at h1

/-- C2 amended: litter keeps its baseline (reclassified) value only at
timestep 0; for every `t >= 1` the litter slice entering the total is the
zero it was allocated with, so `T[t] = S_biomass[t] + S_soil[t]` for `t >= 1`
(and `T[0]` does include the baseline litter). -/
theorem claim_C2_amended (p : CBCParams) :
    S_litterAt p 0 = p.L0 ∧ (∀ t, S_litterAt p (t + 1) = 0) ∧
    T_At p 0 = S_biomassAt p 0 + S_soilAt p 0 + S_litterAt p 0 ∧
    ∀ t, T_At p (t + 1) = S_biomassAt p (t + 1) + S_soilAt p (t + 1) := by
  refine ⟨rfl, fun t => rfl, rfl, fun t => ?_⟩
  show S_biomassAt p (t + 1) + S_soilAt p (t + 1) + S_litterAt p (t + 1) = _
  rw [show S_litterAt p (t + 1) = 0 from rfl]
  ring

def npvParams : CBCParams where
  snapshot_years := [2000, 2001, 2003]
  transitions := 2
  Y_biomass := fun _ => 0
  Y_soil := fun k => if k = 0 then 1 else 5
  D_biomass := fun _ => 0
  D_soil := fun _ => 0
  Sb0 := 0
  Ss0 := 0
  L0 := 0
  price_t := fun _ => 1

/-- C3 counterexample: a pixel accumulating soil carbon at rate 1 during
transition 0 and rate 5 afterwards (no biomass, no disturbance, price 1).
The NPV written by the code is `sum_t (N_biomass[t] + N_soil[0]) * price[t]`
= 3, whereas `sum_t (N_biomass[t] + N_soil[t]) * price[t]` = 11: line 261
reads `N_soil[0]`, not `N_soil[i]`. -/
theorem claim_C3_counterexample :
    NPV npvParams 3 ≠ ∑ i in Finset.range 3,
      (N_biomassAt npvParams i + N_soilAt npvParams i) * npvParams.price_t i := by
  have hDb : ∀ k, npvParams.D_biomass k = 0 := fun _ => rfl
  have hDs : ∀ k, npvParams.D_soil k = 0 := fun _ => rfl
  have hYb : ∀ k, npvParams.Y_biomass k = 0 := fun _ => rfl
  have hp : ∀ i, npvParams.price_t i = 1 := fun _ => rfl
  have hidx0 : resolveIdx npvParams.snapshot_years npvParams.transitions
      ((0 : ℕ) : ℤ) = some 0 := by decide
  have hidx1 : resolveIdx npvParams.snapshot_years npvParams.transitions
      ((1 : ℕ) : ℤ) = some 1 := by decide
  have hidx2 : resolveIdx npvParams.snapshot_years npvParams.transitions
      ((2 : ℕ) : ℤ) = some 1 := by decide
  have hNb : ∀ i, N_biomassAt npvParams i = 0 := by
    intro i
    rw [N_biomassAt, A_biomassAt, E_biomass_zero npvParams hDb i, hYb]
    ring
  have hNs0 : N_soilAt npvParams 0 = 1 := by
    rw [N_soilAt, A_soilAt, E_soil_zero npvParams hDs 0, hidx0]
    show (if (0 : ℕ) = 0 then (1 : ℚ) else 5) - 0 = 1
    norm_num
  have hNs1 : N_soilAt npvParams 1 = 5 := by
    rw [N_soilAt, A_soilAt, E_soil_zero npvParams hDs 1, hidx1]
    show (if (1 : ℕ) = 0 then (1 : ℚ) else 5) - 0 = 5
    norm_num
  have hNs2 : N_soilAt npvParams 2 = 5 := by
    rw [N_soilAt, A_soilAt, E_soil_zero npvParams hDs 2, hidx2]
    show (if (2 : ℕ) = 0 then (1 : ℚ) else 5) - 0 = 5
    norm_num
  have hL : NPV npvParams 3 = 3 := by
    rw [NPV]
    simp only [Finset.sum_range_succ, Finset.sum_range_zero, V_At]
    rw [hNb 0, hNb 1, hNb 2, hNs0, hp 0, hp 1, hp 2]
    norm_num
  have hR : (∑ i in Finset.range 3,
      (N_biomassAt npvParams i + N_soilAt npvParams i) * npvParams.price_t i) = 11 := by
    simp only [Finset.sum_range_succ, Finset.sum_range_zero]
    rw [hNb 0, hNb 1, hNb 2, hNs0, hNs1, hNs2, hp 0, hp 1, hp 2]
    norm_num
  rw [hL, hR]
  norm_num

/-- C3 amended: when economic analysis is enabled the NPV raster value equals
`sum_t (N_biomass[t] + N_soil[0]) * price[t]` — the soil term is fixed at the
baseline timestep's net soil sequestration. -/
theorem claim_C3_amended (p : CBCParams) (timesteps : ℕ) :
    NPV p timesteps = ∑ i in Finset.range timesteps,
      ((A_biomassAt p i - E_biomassAt p i) + (A_soilAt p 0 - E_soilAt p 0)) *
        p.price_t i := by
  rw [NPV]
  refine Finset.sum_congr rfl ?_
  intro i _
  rw [V_At, N_biomassAt, N_soilAt]

/-! ## The reclassifier and the raster writer

Source: `reclass` (lines 381-418) and `write_to_raster` (lines 451-465).
Arrays are modelled as flat lists of values (`ravel` of a block); a float
array element is `Option ℚ` with `none` playing `np.nan` where NaN can occur.
A Python dict is an association list with pairwise-distinct keys. -/

/-- The value `np.finfo(np.float32).min`, the most negative finite 32-bit float:
`-(2 - 2^-23) * 2^127 = -(2^128 - 2^104)`, written as its integer numeral so
that it kernel-reduces. -/
def F32_MIN : ℚ := -340282346638528859811704183484516925440

theorem F32_MIN_eq : F32_MIN = -((2 : ℚ) ^ 128 - 2 ^ 104) := by
  rw [F32_MIN]; norm_num

/-- Line 23: `NODATA_FLOAT = -16777216`, the fixed nodata sentinel for float
raster outputs. -/
def NODATA_FLOAT : ℚ := -16777216

/-- The two element dtypes the model's calls use. -/
inductive NpDtype
  | int32
  | float32

/-- Embeds `np.iinfo(dtype).min` / `np.finfo(dtype).min` (lines 398-401). -/
def dtypeMin : NpDtype → ℚ
  | NpDtype.int32 => -2147483648
  | NpDtype.float32 => F32_MIN

def dictKeys (d : List (ℚ × ℚ)) : List ℚ := d.map Prod.fst

def dictLookup (k : ℚ) : List (ℚ × ℚ) → Option ℚ
  | [] => none
  | p :: rest => if k = p.1 then some p.2 else dictLookup k rest

/-- Embeds `d[k] = v` on a Python dict: replace the value at an existing key,
otherwise add the pair. -/
def dictInsert (k v : ℚ) (d : List (ℚ × ℚ)) : List (ℚ × ℚ) :=
  if k ∈ dictKeys d then d.map (fun p => if p.1 = k then (k, v) else p)
  else d ++ [(k, v)]

def insertSorted (x : ℚ) : List ℚ → List ℚ
  | [] => [x]
  | y :: ys => if x ≤ y then x :: y :: ys else y :: insertSorted x ys

/-- Ascending insertion sort (used to model `sorted(d.keys())` and the sorted
order of `np.unique`). -/
def sortQ (xs : List ℚ) : List ℚ := xs.foldr insertSorted []

/-- Embeds `np.unique(array)`: the distinct values of the array in ascending order. -/
def npUnique (xs : List ℚ) : List ℚ := sortQ xs.dedup

/-- Embeds `np.digitize(x, bins, right=True)` for ascending `bins`: the index `i`
with `bins[i-1] < x <= bins[i]`, i.e. the number of bins strictly below `x`. -/
def digitizeRight (bins : List ℚ) (x : ℚ) : ℕ :=
  (bins.filter (fun b => decide (b < x))).length

/-- Embeds `reclass(array, d, nodata=None, out_dtype, nodata_mask)` (lines 381-418).

* `u = np.unique(array)`, `has_map = np.in1d(u, d.keys())` (line 396-397):
  the membership mask is over the *unique* values, so it has `|u|` entries.
* `a_ravel[~has_map] = ndata` (line 408): under the NumPy of this code base a
  boolean mask shorter than the indexed array selects the positions of its
  `True` entries (`np.nonzero` semantics), so raveled position `p` is
  overwritten exactly when the `p`-th *unique* value has no mapping.
* `d[ndata] = ndata` (line 409) mutates the caller's dict; the pair of the
  result carries the dict after the call.
* `v[np.digitize(a_ravel, k, right=True)]` (lines 410-413): raises
  `IndexError` when some value exceeds every key.
* lines 415-416: when `nodata_mask` is truthy, pixels of the (mutated) array
  equal to it become `np.nan`; the value arrays of every call site are float,
  so `np.issubdtype(reclass_array.dtype, float)` holds.
  `astype(out_dtype)` only fixes the dtype used for `ndata`; the lulc codes
  of every call site are exactly representable, so values are unchanged. -/
def reclass (array : List ℚ) (d : List (ℚ × ℚ)) (out_dtype : NpDtype)
    (nodata_mask : Option ℚ) : Except String (List (Option ℚ)) × List (ℚ × ℚ) :=
  let u := npUnique array
  let has_map := u.map (fun x => decide (x ∈ dictKeys d))
  let ndata := dtypeMin out_dtype
  let a2 := (List.range array.length).map (fun p =>
    if has_map.getD p true = false then ndata else array.getD p 0)
  let d2 := dictInsert ndata ndata d
  let k := sortQ (dictKeys d2)
  let v := k.map (fun key => (dictLookup key d2).getD 0)
  let looked := a2.mapM (fun x =>
    match v.get? (digitizeRight k x) with
    | some y => Except.ok y
    | none => Except.error "IndexError")
  let resultE : Except String (List (Option ℚ)) :=
    match looked with
    | Except.error e => Except.error e
    | Except.ok res =>
      match nodata_mask with
      | some m =>
        if m = 0 then Except.ok (res.map some)
        else Except.ok ((List.zip a2 res).map
          (fun pr => if pr.1 = m then none else some pr.2))
      | none => Except.ok (res.map some)
  (resultE, d2)

/-- IEEE `==` against `np.nan` (`none`): never true. -/
def npFloatEq : Option ℚ → Option ℚ → Bool
  | some a, some b => a == b
  | _, _ => false

/-- The statement `array[array == np.nan] = NODATA_FLOAT` of `write_to_raster`
(lines 462-463), element by element. -/
def writeNanReplace (xs : List (Option ℚ)) : List (Option ℚ) :=
  xs.map (fun x => if npFloatEq x none then some NODATA_FLOAT else x)

/-! ### Dict lemmas -/

theorem dictLookup_map_insert (n v : ℚ) : ∀ d : List (ℚ × ℚ),
    n ∈ dictKeys d →
    dictLookup n (d.map (fun p => if p.1 = n then (n, v) else p)) = some v := by
  intro d
  induction d with
  | nil => intro h; exact absurd h (by simp [dictKeys])
  | cons hd tl ih =>
    intro hmem
    have hmem' : n ∈ hd.1 :: dictKeys tl := hmem
    by_cases hk : hd.1 = n
    · simp only [List.map_cons, if_pos hk]
      rw [dictLookup, if_pos rfl]
    · simp only [List.map_cons, if_neg hk]
      rw [dictLookup, if_neg (fun h => hk h.symm)]
      refine ih ?_
      rcases List.mem_cons.mp hmem' with h | h
      · exact absurd h.symm hk
      · exact h

theorem dictLookup_append_self (n v : ℚ) : ∀ d : List (ℚ × ℚ),
    n ∉ dictKeys d → dictLookup n (d ++ [(n, v)]) = some v := by
  intro d
  induction d with
  | nil => rw [List.nil_append, dictLookup, if_pos rfl]; intro _; rfl
  | cons hd tl ih =>
    intro hmem
    have hmem' : n ∉ hd.1 :: dictKeys tl := hmem
    rw [List.cons_append, dictLookup]
    have hk : ¬(n = hd.1) := fun h => hmem' (h ▸ List.mem_cons_self _ _)
    rw [if_neg hk]
    exact ih (fun h => hmem' (List.mem_cons_of_mem _ h))

theorem dictLookup_dictInsert (n v : ℚ) (d : List (ℚ × ℚ)) :
    dictLookup n (dictInsert n v d) = some v := by
  rw [dictInsert]
  split
  · exact dictLookup_map_insert n v d (by assumption)
  · exact dictLookup_append_self n v d (by assumption)

/-! ### Claims C5, C6, C10 -/

def reclassMapEx : List (ℚ × ℚ) := [(5, 50), (7, 70), (10, 100)]

/-- C5, evaluated at the failing input `array = [9, 5, 7]`,
`d = {5: 50, 7: 70, 10: 100}`, `out_dtype = float32`, no nodata mask.
The code returns `[100, 50, F32_MIN]`: the unmapped value `9` is reclassed to
`100` (the value of the next key up) and the mapped element `7` receives the
sentinel, because the `|unique|`-long mask is applied positionally to the
raveled array.  The claim's prescription — unmapped elements to the sentinel,
mapped elements to `d[value]` — would give `[F32_MIN, 50, 70]`, a different
result. -/
theorem claim_C5_code_eval :
    (reclass [9, 5, 7] reclassMapEx NpDtype.float32 none).1 =
      Except.ok [some 100, some 50, some F32_MIN] ∧
    ([some 100, some 50, some F32_MIN] : List (Option ℚ)) ≠
      [some (dtypeMin NpDtype.float32), some 50, some 70] := by
  constructor
  · rfl
  · intro h
    simp only [List.cons.injEq, Option.some.injEq] at h
    have h1 : (100 : ℚ) = dtypeMin NpDtype.float32 := h.1
    rw [dtypeMin, F32_MIN] at h1
    norm_num at h1

/-- C6 counterexample: the sentinel `NODATA_FLOAT = -16777216` is NOT the most
negative representable 32-bit float plus one, and `write_to_raster`'s
replacement line leaves a NaN element untouched (since `x == np.nan` is always
false), so `[nan]` is not turned into `[NODATA_FLOAT]`. -/
theorem claim_C6_counterexample :
    NODATA_FLOAT ≠ dtypeMin NpDtype.float32 + 1 ∧
    writeNanReplace [none] ≠ [some NODATA_FLOAT] := by
  constructor
  · rw [NODATA_FLOAT, dtypeMin, F32_MIN]
    norm_num
  · intro h
    have h2 : ([none] : List (Option ℚ)) = [some NODATA_FLOAT] := h
    simp at h2

/-- C6 amended: the sentinel is `-16777216 = -(2^24)` (the negative of the
largest width of exactly-representable consecutive float32 integers, not the
most negative float32 plus one), and the NaN-replacement in `write_to_raster`
compares with `==` against NaN — never true — so every float array is written
through unchanged and NaN pixels stay NaN. -/
theorem claim_C6_amended :
    NODATA_FLOAT = -(2 : ℚ) ^ 24 ∧ ∀ xs, writeNanReplace xs = xs := by
  constructor
  · rw [NODATA_FLOAT]; norm_num
  · intro xs
    rw [writeNanReplace]
    have h : ∀ x : Option ℚ, (if npFloatEq x none then some NODATA_FLOAT else x) = x := by
      intro x; cases x <;> rfl
    simp only [h, List.map_id']

/-- C10 counterexample: a call on a mapping that already contains the
sentinel entry `{F32_MIN: F32_MIN}` leaves the mapping unchanged — so it is
not the case that every call leaves the mapping argument changed. -/
theorem claim_C10_counterexample :
    (reclass [F32_MIN] [(F32_MIN, F32_MIN)] NpDtype.float32 none).2 =
      [(F32_MIN, F32_MIN)] := rfl

/-- C10 amended: every call to `reclass` mutates the caller's mapping by
inserting the nodata entry (sentinel key mapped to itself) before the lookup;
the mapping is left changed by the call whenever it did not already bind the
sentinel key to the sentinel. -/
theorem claim_C10_amended (array : List ℚ) (d : List (ℚ × ℚ)) (dt : NpDtype)
    (mask : Option ℚ) :
    (reclass array d dt mask).2 = dictInsert (dtypeMin dt) (dtypeMin dt) d ∧
    (dictLookup (dtypeMin dt) d ≠ some (dtypeMin dt) →
      (reclass array d dt mask).2 ≠ d) := by
  have h2 : (reclass array d dt mask).2 = dictInsert (dtypeMin dt) (dtypeMin dt) d := rfl
  refine ⟨h2, fun hlk h => hlk ?_⟩
  rw [h2] at h
  rw [← h]
  exact dictLookup_dictInsert (dtypeMin dt) (dtypeMin dt) d

/-- Witness for C10 (amended) at `array = [0]`, `d = {}`, int32. -/
theorem claim_C10_witness :
    (reclass [0] [] NpDtype.int32 none).2 ≠ [] :=
  (claim_C10_amended [0] [] NpDtype.int32 none).2 (fun h => Option.noConfusion h)

/-! ### Claim C9 -/

theorem decayRelease_nat (j : ℤ) (m : ℕ) :
    decayRelease (j + m) j = (1 / 2 : ℚ) ^ m - (1 / 2 : ℚ) ^ (m + 1) := by
  rw [decayRelease]
  have h2 : j + (m : ℤ) - j + 1 = ((m + 1 : ℕ) : ℤ) := by push_cast; ring
  have h1 : j + (m : ℤ) - j = ((m : ℕ) : ℤ) := by push_cast; ring
  rw [h2, h1, zpow_natCast, zpow_natCast]

/-- C9: a pixel disturbed by exactly `R0 >= 0` at a single transition that
began at timestep `j` (and zero at every other transition) has cumulative
emission over `n` timesteps `sum_{i=j}^{j+n-1} R0 * (0.5^(i-j) - 0.5^(i-j+1))
= R0 * (1 - 0.5^n)` in exact arithmetic; the cumulative emission approaches
`R0` as `n` grows, and for `n >= 50` it recovers at least 99.9% of `R0`. -/
theorem claim_C9_half_life (R0 : ℚ) (hR0 : 0 ≤ R0) (j : ℤ) (n : ℕ) :
    (∑ m in Finset.range n, R0 * decayRelease (j + m) j) =
      R0 * (1 - (1 / 2 : ℚ) ^ n) ∧
    (∀ ε : ℚ, 0 < ε → ∃ N : ℕ, ∀ n2 : ℕ, N ≤ n2 →
      R0 - (∑ m in Finset.range n2, R0 * decayRelease (j + m) j) < ε) ∧
    (50 ≤ n →
      (999 / 1000 : ℚ) * R0 ≤ ∑ m in Finset.range n, R0 * decayRelease (j + m) j) := by
  have key : ∀ n2 : ℕ, (∑ m in Finset.range n2, R0 * decayRelease (j + m) j) =
      R0 * (1 - (1 / 2 : ℚ) ^ n2) := by
    intro n2
    have h1 : ∀ m ∈ Finset.range n2,
        R0 * decayRelease (j + m) j = R0 * ((1 / 2 : ℚ) ^ m - (1 / 2 : ℚ) ^ (m + 1)) := by
      intro m _
      rw [decayRelease_nat]
    rw [Finset.sum_congr rfl h1, ← Finset.mul_sum]
    have h2 : (∑ m in Finset.range n2, ((1 / 2 : ℚ) ^ m - (1 / 2 : ℚ) ^ (m + 1))) =
        (1 / 2 : ℚ) ^ 0 - (1 / 2 : ℚ) ^ n2 :=
      Finset.sum_range_sub' (fun m => (1 / 2 : ℚ) ^ m) n2
    rw [h2, pow_zero]
  refine ⟨key n, ?_, ?_⟩
  · intro ε hε
    have hp : (0 : ℚ) < R0 + 1 := by linarith
    obtain ⟨N, hN⟩ := exists_pow_lt_of_lt_one (div_pos hε hp)
      (by norm_num : (1 / 2 : ℚ) < 1)
    refine ⟨N, fun n2 hn2 => ?_⟩
    rw [key n2]
    have hpow : (1 / 2 : ℚ) ^ n2 ≤ (1 / 2 : ℚ) ^ N :=
      pow_le_pow_of_le_one (by norm_num) (by norm_num) hn2
    have hd : (1 / 2 : ℚ) ^ N * (R0 + 1) < ε := (lt_div_iff hp).mp hN
    have hnn : (0 : ℚ) ≤ (1 / 2 : ℚ) ^ N := pow_nonneg (by norm_num) N
    nlinarith [mul_le_mul_of_nonneg_left hpow hR0]
  · intro hn
    rw [key n]
    have hpow : (1 / 2 : ℚ) ^ n ≤ (1 / 2 : ℚ) ^ 50 :=
      pow_le_pow_of_le_one (by norm_num) (by norm_num) hn
    have h50 : ((1 : ℚ) / 2) ^ 50 ≤ 1 / 1000 := by norm_num
    nlinarith [mul_le_mul_of_nonneg_left (le_trans hpow h50) hR0]

/-- Witness for C9 at `R0 = 1`, `j = 0`, `n = 50`. -/
theorem claim_C9_witness :
    (∑ m in Finset.range 50, (1 : ℚ) * decayRelease (0 + m) 0) =
      1 * (1 - (1 / 2 : ℚ) ^ 50) ∧
    (∀ ε : ℚ, 0 < ε → ∃ N : ℕ, ∀ n2 : ℕ, N ≤ n2 →
      1 - (∑ m in Finset.range n2, (1 : ℚ) * decayRelease (0 + m) 0) < ε) ∧
    (50 ≤ 50 →
      (999 / 1000 : ℚ) ≤ ∑ m in Finset.range 50, (1 : ℚ) * decayRelease (0 + m) 0) := by
  have h := claim_C9_half_life 1 (by norm_num) 0 50
  refine ⟨h.1, h.2.1, fun h50 => ?_⟩
  have := h.2.2 h50
  linarith

end CBC
